import Mathlib

/-!
# Verification of the TamboReactFlow flow-diagram component

Shallow embedding of `src/cli/src/registry/react-flow/react-flow.tsx`.
Numeric coordinates are modelled as rationals (exact arithmetic over the
operations the component performs: `+`, `-`, `min`, `max`, `/2`).
The JavaScript `Map<string, {x, y}>` position store is modelled as an
association list with `Map.set` semantics: replace in place when the key
is present (preserving insertion order), append otherwise.
-/

set_option autoImplicit false

namespace TamboFlow

/-- A 2-D position `{x, y}` (the `nodePositionSchema`). -/
structure Pos where
  x : ℚ
  y : ℚ
  deriving Repr, DecidableEq

/-- Node kind (`flowNodeSchema.type`): input / output / default / custom. -/
inductive NodeKind where
  | default
  | input
  | output
  | custom
  deriving Repr, DecidableEq

/-- A flow node (`flowNodeSchema`): id, label, position and optional kind.
Style overrides are purely presentational and do not affect any of the
position, viewport or path logic, so they are not modelled. -/
structure FlowNode where
  id : String
  label : String
  position : Pos
  kind : Option NodeKind
  deriving Repr, DecidableEq

/-- Edge connector style (`flowEdgeSchema.type`). -/
inductive EdgeKind where
  | default
  | straight
  | step
  | smoothstep
  | bezier
  deriving Repr, DecidableEq

/-- Edge stroke style (`edgeStyleSchema`). -/
structure EdgeStyle where
  stroke : Option String
  strokeWidth : Option ℚ
  deriving Repr, DecidableEq

/-- A flow edge (`flowEdgeSchema`). -/
structure FlowEdge where
  id : String
  source : String
  target : String
  label : Option String
  kind : Option EdgeKind
  animated : Option Bool
  style : Option EdgeStyle
  deriving Repr, DecidableEq

/-! ## The position store: a JavaScript `Map<string, {x, y}>` -/

/-- The position store `nodePositions : Map<string, {x, y}>`, as an
association list in insertion order. -/
abbrev PosMap := List (String × Pos)

/-- `Map.set`: if the key is already present, replace its value in place
(keeping insertion order); otherwise append the new entry at the end. -/
def mapSet : PosMap → String → Pos → PosMap
  | [], k, v => [(k, v)]
  | (k', v') :: rest, k, v =>
    if k' = k then (k, v) :: rest else (k', v') :: mapSet rest k v

/-- `Map.get`: the value stored at the key, if any. -/
def mapGet : PosMap → String → Option Pos
  | [], _ => none
  | (k', v') :: rest, k => if k' = k then some v' else mapGet rest k

/-- The number of entries in the store carrying a given key. -/
def entryCount (m : PosMap) (k : String) : Nat :=
  m.countP (fun p => p.1 = k)

/-- `posMap.set(node.id, {x: node.position.x, y: node.position.y})`
folded over the node array, starting from `new Map()` — the body of the
position-initialization effect (react-flow.tsx lines 413-417). -/
def initPositions (nodes : List FlowNode) : PosMap :=
  nodes.foldl (fun m n => mapSet m n.id n.position) []

/-- The position-initialization effect (react-flow.tsx lines 411-419):
`if (nodes && nodes.length > 0) { ... setNodePositions(posMap) }` — the
store is replaced only when a non-empty node array is supplied; an absent
(`none`) or empty array leaves the store untouched. -/
def initEffect (nodes : Option (List FlowNode)) (store : PosMap) : PosMap :=
  match nodes with
  | none => store
  | some ns => if ns.length > 0 then initPositions ns else store

/-- `getCurrentPosition` (react-flow.tsx lines 467-469):
`nodePositions.get(nodeId) ?? { x: 0, y: 0 }`. -/
def getCurrentPosition (store : PosMap) (nodeId : String) : Pos :=
  (mapGet store nodeId).getD ⟨0, 0⟩


/-! ## Drag controller state machine -/

/-- The `dragging` state (react-flow.tsx lines 399-405): the node being
dragged, the pointer position at drag start, and the node's stored
position at drag start. -/
structure Dragging where
  nodeId : String
  startX : ℚ
  startY : ℚ
  nodeStartX : ℚ
  nodeStartY : ℚ
  deriving Repr, DecidableEq

/-- The component state touched by the pointer handlers: the optional
drag session and the position store. -/
structure FlowState where
  dragging : Option Dragging
  nodePositions : PosMap
  deriving Repr, DecidableEq

/-- `handleMouseDown` (react-flow.tsx lines 477-488): ignored unless
`interactive`; otherwise captures the node id, the pointer start
coordinates and the node's current stored position. -/
def handleMouseDown (interactive : Bool) (nodeId : String)
    (clientX clientY : ℚ) (s : FlowState) : FlowState :=
  if !interactive then s
  else
    let pos := getCurrentPosition s.nodePositions nodeId
    { s with dragging := some ⟨nodeId, clientX, clientY, pos.x, pos.y⟩ }

/-- `handleMouseMove` (react-flow.tsx lines 490-504): ignored unless a
drag session is active and `interactive`; otherwise writes
`nodeStart + (client - start)` into the store for the dragged node. -/
def handleMouseMove (interactive : Bool) (clientX clientY : ℚ)
    (s : FlowState) : FlowState :=
  match s.dragging with
  | none => s
  | some d =>
    if !interactive then s
    else
      let dx := clientX - d.startX
      let dy := clientY - d.startY
      { s with nodePositions :=
          mapSet s.nodePositions d.nodeId ⟨d.nodeStartX + dx, d.nodeStartY + dy⟩ }

/-- `handleMouseUp` (react-flow.tsx lines 506-508): discard the drag
session (also wired to mouse-leave). -/
def handleMouseUp (s : FlowState) : FlowState :=
  { s with dragging := none }

/-- A simulated pointer event on the drawing surface. -/
inductive PointerEvent where
  | down (nodeId : String) (clientX clientY : ℚ)
  | move (clientX clientY : ℚ)
  | up
  deriving Repr, DecidableEq

/-- Dispatch one pointer event to the corresponding handler. -/
def processEvent (interactive : Bool) (s : FlowState) : PointerEvent → FlowState
  | .down nodeId cx cy => handleMouseDown interactive nodeId cx cy s
  | .move cx cy => handleMouseMove interactive cx cy s
  | .up => handleMouseUp s

/-- Run a sequence of pointer events. -/
def runEvents (interactive : Bool) (evs : List PointerEvent)
    (s : FlowState) : FlowState :=
  evs.foldl (processEvent interactive) s

/-! ## Viewport fitter -/

/-- The SVG `viewBox` rectangle `min-x min-y width height`. -/
structure ViewBox where
  x : ℚ
  y : ℚ
  w : ℚ
  h : ℚ
  deriving Repr, DecidableEq

/-- `Math.min(...xs)` for a non-empty list (the effect guards against the
empty case, where JavaScript would produce Infinity). -/
def listMin : List ℚ → ℚ
  | [] => 0
  | x :: xs => xs.foldl min x

/-- `Math.max(...xs)` for a non-empty list. -/
def listMax : List ℚ → ℚ
  | [] => 0
  | x :: xs => xs.foldl max x

/-- The fit-view computation (react-flow.tsx lines 430-441): bounding box
of the positions with margins 50 left/top, 200 right, 100 bottom, width
clamped to at least 400 and height to at least 300. -/
def fitViewBox (positions : List Pos) : ViewBox :=
  let xs := positions.map Pos.x
  let ys := positions.map Pos.y
  let minX := listMin xs - 50
  let minY := listMin ys - 50
  let maxX := listMax xs + 200
  let maxY := listMax ys + 100
  ⟨minX, minY, max (maxX - minX) 400, max (maxY - minY) 300⟩

/-- The positions the fit-view effect ranges over (react-flow.tsx lines
425-428): the store's values when the store is non-empty, otherwise the
raw supplied positions. -/
def currentPositions (nodes : List FlowNode) (store : PosMap) : List Pos :=
  if store.length > 0 then store.map Prod.snd else nodes.map FlowNode.position

/-- The viewBox effect (react-flow.tsx lines 422-442):
`if (!fitView || !nodes || nodes.length === 0) return;` leaves the
previous viewBox; otherwise the fitted box is computed and stored. -/
def viewBoxEffect (fitView : Bool) (nodes : Option (List FlowNode))
    (store : PosMap) (prev : ViewBox) : ViewBox :=
  match nodes with
  | none => prev
  | some ns =>
    if fitView && ns.length > 0 then fitViewBox (currentPositions ns store)
    else prev

/-! ## Edge path synthesis -/

/-- One SVG path command, as assembled into the `d` string:
`M x y`, `L x y`, or `C x1 y1, x2 y2, x y`. -/
inductive PathCmd where
  | moveTo (x y : ℚ)
  | lineTo (x y : ℚ)
  | curveTo (x1 y1 x2 y2 x y : ℚ)
  deriving Repr, DecidableEq

/-- The `switch (edge.type)` of `renderEdge` (react-flow.tsx lines
302-315) building the path `d` commands. `straight` is a single line,
`step` is three orthogonal segments through the vertical midpoint, and
`smoothstep`, `bezier` and the default branch (type unset or `default`)
are a single cubic whose control points sit at the vertical midpoint. -/
def edgePathD (kind : Option EdgeKind) (sourceX sourceY targetX targetY midY : ℚ) :
    List PathCmd :=
  match kind with
  | some .straight => [.moveTo sourceX sourceY, .lineTo targetX targetY]
  | some .step =>
    [.moveTo sourceX sourceY, .lineTo sourceX midY, .lineTo targetX midY,
     .lineTo targetX targetY]
  | _ =>
    [.moveTo sourceX sourceY,
     .curveTo sourceX midY targetX midY targetX targetY]

/-- The rendered `<g>` for one edge: path commands, stroke styling,
animation flag, and the optional label with its text position
`(midX, midY - 10)`. -/
structure RenderedEdge where
  edgeId : String
  path : List PathCmd
  stroke : String
  strokeWidth : ℚ
  animated : Bool
  label : Option (String × ℚ × ℚ)
  deriving Repr, DecidableEq

/-- `renderEdge` (react-flow.tsx lines 282-353). Looks up the source and
target nodes by id; when either is missing returns `none` (the edge is
skipped). Otherwise anchors at `position + (60, 25)` on both ends and
synthesizes the path per the edge kind. -/
def renderEdge (edge : FlowEdge) (nodes : List FlowNode) : Option RenderedEdge :=
  match nodes.find? (fun n => n.id = edge.source),
        nodes.find? (fun n => n.id = edge.target) with
  | some sourceNode, some targetNode =>
    let sourceX := sourceNode.position.x + 60
    let sourceY := sourceNode.position.y + 25
    let targetX := targetNode.position.x + 60
    let targetY := targetNode.position.y + 25
    let midX := (sourceX + targetX) / 2
    let midY := (sourceY + targetY) / 2
    let strokeColor := (edge.style.bind EdgeStyle.stroke).getD "#94a3b8"
    let strokeW := (edge.style.bind EdgeStyle.strokeWidth).getD 2
    some
      { edgeId := edge.id
        path := edgePathD edge.kind sourceX sourceY targetX targetY midY
        stroke := strokeColor
        strokeWidth := strokeW
        animated := edge.animated.getD false
        label := edge.label.map (fun l => (l, midX, midY - 10)) }
  | _, _ => none

/-! ## Container classes and render output -/

/-- Container visual variant. -/
inductive FlowVariant where
  | default
  | solid
  | bordered
  deriving Repr, DecidableEq

/-- Container size preset. -/
inductive FlowSize where
  | default
  | sm
  | lg
  | full
  deriving Repr, DecidableEq

/-- The `variant` classes of the `flowVariants` cva definition. -/
def variantClasses : FlowVariant → String
  | .default => "bg-background"
  | .solid => "shadow-lg shadow-zinc-900/10 dark:shadow-zinc-900/20 bg-muted"
  | .bordered => "border-2 border-border"

/-- The `size` classes of the `flowVariants` cva definition. -/
def sizeClasses : FlowSize → String
  | .default => "h-96"
  | .sm => "h-64"
  | .lg => "h-[32rem]"
  | .full => "h-[calc(100vh-8rem)]"

/-- `flowVariants` (react-flow.tsx lines 21-45): base classes plus the
variant and size classes, with defaults `default`/`default`. -/
def flowVariants (variant : Option FlowVariant) (size : Option FlowSize) : String :=
  "w-full rounded-lg overflow-hidden transition-all duration-200 "
    ++ variantClasses (variant.getD .default) ++ " "
    ++ sizeClasses (size.getD .default)

/-- `cn(base, className)`: append the optional extra class string. -/
def cn (base : String) (extra : Option String) : String :=
  match extra with
  | none => base
  | some c => base ++ " " ++ c

/-- The container class every branch of the component uses:
`cn(flowVariants(variant, size), className)`. -/
def containerClass (variant : Option FlowVariant) (size : Option FlowSize)
    (className : Option String) : String :=
  cn (flowVariants variant size) className

/-- One rendered node `<foreignObject>`: id, on-canvas position, label. -/
structure NodeRender where
  nodeId : String
  x : ℚ
  y : ℚ
  label : String
  deriving Repr, DecidableEq

/-- The component's top-level output: the loading placeholder, the
diagram, or the error-boundary fallback panel. Each carries the
container class of its outer `div`. -/
inductive RenderOutput where
  | loading (containerCls : String)
  | diagram (containerCls : String) (title : Option String)
      (edges : List RenderedEdge) (nodes : List NodeRender)
  | errorPanel (containerCls : String)
  deriving Repr, DecidableEq

/-- The container class carried by a render output. -/
def outputClass : RenderOutput → String
  | .loading c => c
  | .diagram c _ _ _ => c
  | .errorPanel c => c

/-- The component's props after destructuring (react-flow.tsx lines
384-394); `fitView` defaults to true and `interactive` to false there. -/
structure FlowProps where
  nodes : Option (List FlowNode)
  edges : Option (List FlowEdge)
  title : Option String
  variant : Option FlowVariant
  size : Option FlowSize
  className : Option String
  fitView : Bool
  interactive : Bool

/-- `nodesWithCurrentPositions` (react-flow.tsx lines 472-475): each
supplied node with its position replaced by the stored one. -/
def nodesWithCurrentPositions (nodes : List FlowNode) (store : PosMap) :
    List FlowNode :=
  nodes.map (fun n => { n with position := getCurrentPosition store n.id })

/-- The diagram subtree (react-flow.tsx lines 510-575): edges rendered
through `renderEdge` over the nodes with current positions (a `null`
result contributes nothing), then the nodes at their current stored
positions. -/
def renderDiagram (p : FlowProps) (store : PosMap) (ns : List FlowNode) :
    RenderOutput :=
  let nsCur := nodesWithCurrentPositions ns store
  .diagram (containerClass p.variant p.size p.className) p.title
    ((p.edges.getD []).filterMap (fun e => renderEdge e nsCur))
    (nsCur.map (fun n =>
      { nodeId := n.id
        x := (getCurrentPosition store n.id).x
        y := (getCurrentPosition store n.id).y
        label := n.label }))

/-- `FlowErrorBoundary.render` (react-flow.tsx lines 77-102): when
`hasError` is set the static error panel with the container classes
`cn(flowVariants(variant, size), className)` is returned; otherwise the
children pass through. -/
def flowErrorBoundaryRender (variant : Option FlowVariant)
    (size : Option FlowSize) (className : Option String) (hasError : Bool)
    (children : RenderOutput) : RenderOutput :=
  if hasError then .errorPanel (cn (flowVariants variant size) className)
  else children

/-- The component's whole render (react-flow.tsx lines 444-575). An
absent or empty node array returns the loading placeholder before the
boundary wrap. Otherwise the diagram subtree is wrapped in
`FlowErrorBoundary`; `subtreeFailure` models React's error contract: an
exception thrown anywhere in the subtree reaches
`getDerivedStateFromError`, which sets `hasError`, and the boundary then
renders the fallback instead of propagating the exception. -/
def componentRender (p : FlowProps) (store : PosMap)
    (subtreeFailure : Option String) : RenderOutput :=
  match p.nodes with
  | none => .loading (containerClass p.variant p.size p.className)
  | some ns =>
    if ns.length = 0 then .loading (containerClass p.variant p.size p.className)
    else
      flowErrorBoundaryRender p.variant p.size p.className
        subtreeFailure.isSome (renderDiagram p store ns)

/-! ### Basic lemmas about the store -/

theorem mapSet_cons_eq (tl : PosMap) (k₀ k : String) (v₀ v : Pos)
    (h : k₀ = k) : mapSet ((k₀, v₀) :: tl) k v = (k, v) :: tl := by
  simp [mapSet, h]

theorem mapSet_cons_ne (tl : PosMap) (k₀ k : String) (v₀ v : Pos)
    (h : ¬k₀ = k) : mapSet ((k₀, v₀) :: tl) k v = (k₀, v₀) :: mapSet tl k v := by
  simp [mapSet, h]

theorem mapGet_mapSet_self (m : PosMap) (k : String) (v : Pos) :
    mapGet (mapSet m k v) k = some v := by
  induction m with
  | nil => simp [mapSet, mapGet]
  | cons hd tl ih =>
    obtain ⟨k', v'⟩ := hd
    by_cases h : k' = k
    · rw [mapSet_cons_eq tl k' k v' v h]
      simp [mapGet]
    · rw [mapSet_cons_ne tl k' k v' v h]
      simp [mapGet, h, ih]

theorem mapGet_mapSet_ne (m : PosMap) (k k' : String) (v : Pos)
    (h : k' ≠ k) : mapGet (mapSet m k v) k' = mapGet m k' := by
  have h2 : ¬k = k' := by
    intro hx
    exact h hx.symm
  induction m with
  | nil => simp [mapSet, mapGet, h2]
  | cons hd tl ih =>
    obtain ⟨k₀, v₀⟩ := hd
    by_cases h₀ : k₀ = k
    · rw [mapSet_cons_eq tl k₀ k v₀ v h₀]
      subst h₀
      simp [mapGet, h2]
    · rw [mapSet_cons_ne tl k₀ k v₀ v h₀]
      by_cases h₁ : k₀ = k'
      · simp [mapGet, h₁]
      · simp [mapGet, h₁, ih]

theorem mem_keys_mapSet (m : PosMap) (k k' : String) (v : Pos) :
    k' ∈ (mapSet m k v).map Prod.fst ↔ k' = k ∨ k' ∈ m.map Prod.fst := by
  induction m with
  | nil => simp [mapSet]
  | cons hd tl ih =>
    obtain ⟨k₀, v₀⟩ := hd
    by_cases h₀ : k₀ = k
    · rw [mapSet_cons_eq tl k₀ k v₀ v h₀]
      subst h₀
      simp only [List.map_cons, List.mem_cons]
      tauto
    · rw [mapSet_cons_ne tl k₀ k v₀ v h₀]
      simp only [List.map_cons, List.mem_cons, ih]
      tauto

theorem keys_nodup_mapSet (m : PosMap) (k : String) (v : Pos)
    (h : (m.map Prod.fst).Nodup) : ((mapSet m k v).map Prod.fst).Nodup := by
  induction m with
  | nil => simp [mapSet]
  | cons hd tl ih =>
    obtain ⟨k₀, v₀⟩ := hd
    simp only [List.map_cons, List.nodup_cons] at h
    by_cases h₀ : k₀ = k
    · rw [mapSet_cons_eq tl k₀ k v₀ v h₀]
      subst h₀
      simpa using h
    · rw [mapSet_cons_ne tl k₀ k v₀ v h₀]
      simp only [List.map_cons, List.nodup_cons]
      refine ⟨?_, ih h.2⟩
      rw [mem_keys_mapSet]
      rintro (rfl | hmem)
      · exact h₀ rfl
      · exact h.1 hmem

theorem length_mapSet_not_mem (m : PosMap) (k : String) (v : Pos)
    (h : k ∉ m.map Prod.fst) : (mapSet m k v).length = m.length + 1 := by
  induction m with
  | nil => simp [mapSet]
  | cons hd tl ih =>
    obtain ⟨k₀, v₀⟩ := hd
    simp only [List.map_cons, List.mem_cons] at h
    push_neg at h
    have h₀ : ¬k₀ = k := by
      intro hx
      exact h.1 hx.symm
    rw [mapSet_cons_ne tl k₀ k v₀ v h₀]
    simp [ih h.2]

theorem isSome_mapGet_iff (m : PosMap) (k : String) :
    (mapGet m k).isSome = true ↔ k ∈ m.map Prod.fst := by
  induction m with
  | nil => simp [mapGet]
  | cons hd tl ih =>
    obtain ⟨k₀, v₀⟩ := hd
    by_cases h₀ : k₀ = k
    · subst h₀
      simp [mapGet]
    · have hne : ¬k = k₀ := by
        intro hx
        exact h₀ hx.symm
      rw [List.map_cons, List.mem_cons]
      simp only [mapGet, if_neg h₀]
      rw [ih]
      simp [hne]

theorem entryCount_eq_zero_of_not_mem (m : PosMap) (k : String)
    (h : k ∉ m.map Prod.fst) : entryCount m k = 0 := by
  induction m with
  | nil => simp [entryCount]
  | cons hd tl ih =>
    obtain ⟨k₀, v₀⟩ := hd
    simp only [List.map_cons, List.mem_cons] at h
    push_neg at h
    have h₀ : ¬k₀ = k := by
      intro hx
      exact h.1 hx.symm
    simp only [entryCount, List.countP_cons] at ih ⊢
    simp [h₀, ih h.2]

/-- In a store whose keys are pairwise distinct, each key carries one
entry if it is present and none otherwise. -/
theorem entryCount_of_keys_nodup (m : PosMap) (k : String)
    (h : (m.map Prod.fst).Nodup) :
    entryCount m k = if (mapGet m k).isSome then 1 else 0 := by
  induction m with
  | nil => simp [entryCount, mapGet]
  | cons hd tl ih =>
    obtain ⟨k₀, v₀⟩ := hd
    simp only [List.map_cons, List.nodup_cons] at h
    by_cases h₀ : k₀ = k
    · subst h₀
      have : entryCount tl k₀ = 0 := entryCount_eq_zero_of_not_mem tl k₀ h.1
      simp only [entryCount, List.countP_cons] at this ⊢
      simp [mapGet, this]
    · simp only [entryCount, List.countP_cons] at ih ⊢
      simp [mapGet, h₀, ih h.2]

/-! ### Lemmas about the initialization fold -/

theorem mem_keys_foldl (nodes : List FlowNode) (m : PosMap) (k : String) :
    k ∈ ((nodes.foldl (fun m n => mapSet m n.id n.position) m).map Prod.fst) ↔
      k ∈ nodes.map FlowNode.id ∨ k ∈ m.map Prod.fst := by
  induction nodes generalizing m with
  | nil => simp
  | cons n rest ih =>
    rw [List.foldl_cons, ih, List.map_cons, List.mem_cons, mem_keys_mapSet]
    tauto

theorem keys_nodup_foldl (nodes : List FlowNode) (m : PosMap)
    (h : (m.map Prod.fst).Nodup) :
    (((nodes.foldl (fun m n => mapSet m n.id n.position) m)).map Prod.fst).Nodup := by
  induction nodes generalizing m with
  | nil => simpa using h
  | cons n rest ih =>
    rw [List.foldl_cons]
    exact ih _ (keys_nodup_mapSet m n.id n.position h)

theorem length_foldl (nodes : List FlowNode) (m : PosMap)
    (hdis : ∀ n ∈ nodes, n.id ∉ m.map Prod.fst)
    (hnd : (nodes.map FlowNode.id).Nodup) :
    (nodes.foldl (fun m n => mapSet m n.id n.position) m).length =
      m.length + nodes.length := by
  induction nodes generalizing m with
  | nil => simp
  | cons n rest ih =>
    rw [List.foldl_cons]
    simp only [List.map_cons, List.nodup_cons] at hnd
    have hlen : (mapSet m n.id n.position).length = m.length + 1 :=
      length_mapSet_not_mem m n.id n.position (hdis n (List.mem_cons_self n rest))
    have hdis₂ : ∀ n' ∈ rest, n'.id ∉ (mapSet m n.id n.position).map Prod.fst := by
      intro n' hn'
      rw [mem_keys_mapSet]
      rintro (heq | hmem)
      · exact hnd.1 (heq ▸ List.mem_map_of_mem FlowNode.id hn')
      · exact hdis n' (List.mem_cons_of_mem n hn') hmem
    rw [ih _ hdis₂ hnd.2, hlen]
    simp only [List.length_cons]
    omega

theorem mapGet_foldl (nodes : List FlowNode) (m : PosMap) (k : String) :
    mapGet (nodes.foldl (fun m n => mapSet m n.id n.position) m) k =
      ((nodes.filter (fun n => n.id = k)).getLast?).elim (mapGet m k)
        (fun n => some n.position) := by
  induction nodes using List.reverseRecOn with
  | nil => simp
  | append_singleton l n ih =>
    rw [List.foldl_append, List.foldl_cons, List.foldl_nil, List.filter_append]
    by_cases hid : n.id = k
    · subst hid
      rw [mapGet_mapSet_self]
      simp [List.getLast?_concat]
    · have hne : k ≠ n.id := by
        intro hx
        exact hid hx.symm
      rw [mapGet_mapSet_ne _ _ _ _ hne, ih]
      simp [hid]

theorem initPositions_keys_nodup (nodes : List FlowNode) :
    ((initPositions nodes).map Prod.fst).Nodup := by
  apply keys_nodup_foldl
  simp

theorem mem_keys_initPositions (nodes : List FlowNode) (k : String) :
    k ∈ (initPositions nodes).map Prod.fst ↔ k ∈ nodes.map FlowNode.id := by
  rw [initPositions, mem_keys_foldl]
  simp

theorem mapGet_initPositions (nodes : List FlowNode) (k : String) :
    mapGet (initPositions nodes) k =
      ((nodes.filter (fun n => n.id = k)).getLast?).elim none
        (fun n => some n.position) := by
  rw [initPositions, mapGet_foldl]
  rfl

theorem length_initPositions (nodes : List FlowNode)
    (hnd : (nodes.map FlowNode.id).Nodup) :
    (initPositions nodes).length = nodes.length := by
  rw [initPositions, length_foldl nodes [] (by simp) hnd]
  simp

theorem filter_id_eq_singleton (nodes : List FlowNode) (n : FlowNode)
    (hmem : n ∈ nodes) (hnd : (nodes.map FlowNode.id).Nodup) :
    nodes.filter (fun n' => n'.id = n.id) = [n] := by
  induction nodes with
  | nil => cases hmem
  | cons hd rest ih =>
    simp only [List.map_cons, List.nodup_cons] at hnd
    rcases List.mem_cons.mp hmem with rfl | hmem₂
    · have hrest : rest.filter (fun n' => n'.id = n.id) = [] := by
        rw [List.filter_eq_nil_iff]
        intro n' hn'
        simp only [decide_eq_true_eq]
        intro heq
        exact hnd.1 (heq ▸ List.mem_map_of_mem FlowNode.id hn')
      simp [List.filter_cons, hrest]
    · have hne : ¬hd.id = n.id := by
        intro heq
        exact hnd.1 (heq ▸ List.mem_map_of_mem FlowNode.id hmem₂)
      simp only [List.filter_cons, decide_eq_true_eq, hne, if_false]
      exact ih hmem₂ hnd.2

theorem mapGet_initPositions_of_nodup (nodes : List FlowNode) (n : FlowNode)
    (hmem : n ∈ nodes) (hnd : (nodes.map FlowNode.id).Nodup) :
    mapGet (initPositions nodes) n.id = some n.position := by
  rw [mapGet_initPositions, filter_id_eq_singleton nodes n hmem hnd]
  rfl

/-! ### Lemmas about list minimum and maximum -/

theorem foldl_min_le_init (xs : List ℚ) (a : ℚ) : xs.foldl min a ≤ a := by
  induction xs generalizing a with
  | nil => simp
  | cons x rest ih =>
    rw [List.foldl_cons]
    exact le_trans (ih (min a x)) (min_le_left a x)

theorem foldl_min_le (xs : List ℚ) (a x : ℚ) (hx : x ∈ xs) :
    xs.foldl min a ≤ x := by
  induction xs generalizing a with
  | nil => cases hx
  | cons y rest ih =>
    rw [List.foldl_cons]
    rcases List.mem_cons.mp hx with rfl | hx₂
    · exact le_trans (foldl_min_le_init rest (min a x)) (min_le_right a x)
    · exact ih (min a y) hx₂

theorem listMin_le (xs : List ℚ) (x : ℚ) (hx : x ∈ xs) : listMin xs ≤ x := by
  cases xs with
  | nil => cases hx
  | cons y rest =>
    rw [listMin]
    rcases List.mem_cons.mp hx with rfl | hx₂
    · exact foldl_min_le_init rest x
    · exact foldl_min_le rest y x hx₂

theorem init_le_foldl_max (xs : List ℚ) (a : ℚ) : a ≤ xs.foldl max a := by
  induction xs generalizing a with
  | nil => simp
  | cons x rest ih =>
    rw [List.foldl_cons]
    exact le_trans (le_max_left a x) (ih (max a x))

theorem le_foldl_max (xs : List ℚ) (a x : ℚ) (hx : x ∈ xs) :
    x ≤ xs.foldl max a := by
  induction xs generalizing a with
  | nil => cases hx
  | cons y rest ih =>
    rw [List.foldl_cons]
    rcases List.mem_cons.mp hx with rfl | hx₂
    · exact le_trans (le_max_right a x) (init_le_foldl_max rest (max a x))
    · exact ih (max a y) hx₂

theorem le_listMax (xs : List ℚ) (x : ℚ) (hx : x ∈ xs) : x ≤ listMax xs := by
  cases xs with
  | nil => cases hx
  | cons y rest =>
    rw [listMax]
    rcases List.mem_cons.mp hx with rfl | hx₂
    · exact init_le_foldl_max rest x
    · exact le_foldl_max rest y x hx₂

theorem foldl_min_mem (xs : List ℚ) (a : ℚ) :
    xs.foldl min a = a ∨ xs.foldl min a ∈ xs := by
  induction xs generalizing a with
  | nil => exact Or.inl rfl
  | cons x rest ih =>
    rw [List.foldl_cons]
    rcases ih (min a x) with h | h
    · rcases le_total a x with hax | hxa
      · exact Or.inl (by rw [h, min_eq_left hax])
      · exact Or.inr (by rw [h, min_eq_right hxa]; exact List.mem_cons_self x rest)
    · exact Or.inr (List.mem_cons_of_mem x h)

theorem listMin_mem (xs : List ℚ) (h : xs ≠ []) : listMin xs ∈ xs := by
  cases xs with
  | nil => exact absurd rfl h
  | cons y rest =>
    rw [listMin]
    rcases foldl_min_mem rest y with h₂ | h₂
    · rw [h₂]
      exact List.mem_cons_self y rest
    · exact List.mem_cons_of_mem y h₂

theorem foldl_max_mem (xs : List ℚ) (a : ℚ) :
    xs.foldl max a = a ∨ xs.foldl max a ∈ xs := by
  induction xs generalizing a with
  | nil => exact Or.inl rfl
  | cons x rest ih =>
    rw [List.foldl_cons]
    rcases ih (max a x) with h | h
    · rcases le_total a x with hax | hxa
      · exact Or.inr (by rw [h, max_eq_right hax]; exact List.mem_cons_self x rest)
      · exact Or.inl (by rw [h, max_eq_left hxa])
    · exact Or.inr (List.mem_cons_of_mem x h)

theorem listMax_mem (xs : List ℚ) (h : xs ≠ []) : listMax xs ∈ xs := by
  cases xs with
  | nil => exact absurd rfl h
  | cons y rest =>
    rw [listMax]
    rcases foldl_max_mem rest y with h₂ | h₂
    · rw [h₂]
      exact List.mem_cons_self y rest
    · exact List.mem_cons_of_mem y h₂

theorem currentPositions_ne_nil (nodes : List FlowNode) (store : PosMap)
    (h : nodes ≠ []) : currentPositions nodes store ≠ [] := by
  rw [currentPositions]
  by_cases hs : store.length > 0
  · simp only [hs, if_true]
    intro hx
    rw [List.map_eq_nil_iff] at hx
    rw [hx] at hs
    simp at hs
  · simp only [hs, if_false]
    intro hx
    rw [List.map_eq_nil_iff] at hx
    exact h hx

/-! ## Claim theorems -/

/-- Claim C8: position lookup is total: an identifier with no entry in
the store yields the origin (0, 0) instead of an error, and an
identifier with an entry yields the stored coordinates. -/
theorem claim_c8_lookup_total (store : PosMap) (nodeId : String) :
    (mapGet store nodeId = none → getCurrentPosition store nodeId = ⟨0, 0⟩) ∧
    (∀ p : Pos, mapGet store nodeId = some p →
      getCurrentPosition store nodeId = p) := by
  constructor
  · intro h
    rw [getCurrentPosition, h]
    rfl
  · intro p h
    rw [getCurrentPosition, h]
    rfl

/-- Witness for C8 at a missing id and at a present id. -/
theorem claim_c8_lookup_total_witness :
    getCurrentPosition [] "a" = ⟨0, 0⟩ ∧
    getCurrentPosition [("b", ⟨3, 4⟩)] "b" = ⟨3, 4⟩ :=
  ⟨(claim_c8_lookup_total [] "a").1 rfl,
   (claim_c8_lookup_total [("b", ⟨3, 4⟩)] "b").2 ⟨3, 4⟩ rfl⟩

/-- Claim C5: with `interactive = false`, any simulated sequence of
pointer-down / pointer-move / pointer-up events leaves the position
store unchanged. -/
theorem claim_c5_not_interactive_frozen (evs : List PointerEvent) (s : FlowState) :
    (runEvents false evs s).nodePositions = s.nodePositions := by
  induction evs generalizing s with
  | nil => rfl
  | cons e rest ih =>
    have h1 : (processEvent false s e).nodePositions = s.nodePositions := by
      cases e with
      | down nodeId cx cy => simp [processEvent, handleMouseDown]
      | move cx cy =>
        cases hd : s.dragging <;>
          simp [processEvent, handleMouseMove, hd]
      | up => simp [processEvent, handleMouseUp]
    calc (runEvents false (e :: rest) s).nodePositions
        = (runEvents false rest (processEvent false s e)).nodePositions := rfl
      _ = (processEvent false s e).nodePositions := ih (processEvent false s e)
      _ = s.nodePositions := h1

/-- Claim C4: with an active drag session on node `d.nodeId` started at
pointer `(startX, startY)` and node start position
`(nodeStartX, nodeStartY)`, a pointer-move to `(startX + dx, startY + dy)`
with `interactive = true` stores exactly
`(nodeStartX + dx, nodeStartY + dy)` for the dragged node, and every
other node's stored position is unchanged. -/
theorem claim_c4_drag_moves_only_target (s : FlowState) (d : Dragging) (dx dy : ℚ)
    (h : s.dragging = some d) :
    mapGet (handleMouseMove true (d.startX + dx) (d.startY + dy) s).nodePositions
      d.nodeId = some ⟨d.nodeStartX + dx, d.nodeStartY + dy⟩ ∧
    ∀ k, k ≠ d.nodeId →
      mapGet (handleMouseMove true (d.startX + dx) (d.startY + dy) s).nodePositions k
        = mapGet s.nodePositions k := by
  have hx : d.nodeStartX + (d.startX + dx - d.startX) = d.nodeStartX + dx := by ring
  have hy : d.nodeStartY + (d.startY + dy - d.startY) = d.nodeStartY + dy := by ring
  have hmv : (handleMouseMove true (d.startX + dx) (d.startY + dy) s).nodePositions
      = mapSet s.nodePositions d.nodeId ⟨d.nodeStartX + dx, d.nodeStartY + dy⟩ := by
    unfold handleMouseMove
    rw [h]
    simp [hx, hy]
  rw [hmv]
  exact ⟨mapGet_mapSet_self s.nodePositions d.nodeId _,
    fun k hk => mapGet_mapSet_ne s.nodePositions d.nodeId k _ hk⟩

/-- Witness for C4: node n1 dragged from (100, 200) by (7, -3) moves to
(107, 197); node n2 stays where it was. -/
theorem claim_c4_drag_moves_only_target_witness :
    mapGet (handleMouseMove true (10 + 7) (20 + -3)
        ⟨some ⟨"n1", 10, 20, 100, 200⟩,
         [("n1", ⟨100, 200⟩), ("n2", ⟨5, 6⟩)]⟩).nodePositions "n1"
      = some ⟨100 + 7, 200 + -3⟩ ∧
    mapGet (handleMouseMove true (10 + 7) (20 + -3)
        ⟨some ⟨"n1", 10, 20, 100, 200⟩,
         [("n1", ⟨100, 200⟩), ("n2", ⟨5, 6⟩)]⟩).nodePositions "n2"
      = mapGet [("n1", ⟨100, 200⟩), ("n2", ⟨5, 6⟩)] "n2" := by
  have h := claim_c4_drag_moves_only_target
    ⟨some ⟨"n1", 10, 20, 100, 200⟩, [("n1", ⟨100, 200⟩), ("n2", ⟨5, 6⟩)]⟩
    ⟨"n1", 10, 20, 100, 200⟩ 7 (-3) rfl
  exact ⟨h.1, h.2 "n2" (by decide)⟩

/-- Claim C9: replacing the nodes prop by an absent or empty sequence
leaves the position store untouched (the reset effect only fires for
non-empty collections) while the component renders the loading
placeholder. -/
theorem claim_c9_empty_nodes_keep_store (p : FlowProps) (store : PosMap)
    (failure : Option String) (h : p.nodes = none ∨ p.nodes = some []) :
    initEffect p.nodes store = store ∧
    componentRender p store failure
      = .loading (containerClass p.variant p.size p.className) := by
  rcases h with h | h <;>
    exact ⟨by simp [initEffect, h], by simp [componentRender, h]⟩

/-- Witness for C9: absent nodes with a non-empty prior store. -/
theorem claim_c9_empty_nodes_keep_store_witness :
    initEffect none [("a", ⟨1, 1⟩)] = [("a", ⟨1, 1⟩)] ∧
    componentRender ⟨none, none, none, none, none, none, true, false⟩
        [("a", ⟨1, 1⟩)] none
      = .loading (containerClass none none none) :=
  claim_c9_empty_nodes_keep_store
    ⟨none, none, none, none, none, none, true, false⟩
    [("a", ⟨1, 1⟩)] none (Or.inl rfl)

/-- Counterexample to C1 as stated: the claim quantifies over every
supplied node collection, but for the empty collection the effect body is
skipped, so a previous drag-adjusted entry is kept rather than the store
being reset to (zero) entries of the supplied collection. -/
theorem claim_c1_counterexample :
    initEffect (some []) [("old", ⟨5, 5⟩)] ≠ [] := by
  decide

/-- Claim C1 (amended to non-empty collections with unique ids, the
spec's own invariant): the initialization effect replaces the store with
exactly the supplied positions — the result is `initPositions nodes`
independent of the previous store, holds one entry per supplied node,
maps each node id to its supplied coordinates, and holds keys for
exactly the supplied ids. -/
theorem claim_c1_init_resets (nodes : List FlowNode) (store : PosMap)
    (hne : nodes ≠ []) (hnd : (nodes.map FlowNode.id).Nodup) :
    initEffect (some nodes) store = initPositions nodes ∧
    (initEffect (some nodes) store).length = nodes.length ∧
    (∀ n ∈ nodes, mapGet (initEffect (some nodes) store) n.id = some n.position) ∧
    (∀ k, k ∈ (initEffect (some nodes) store).map Prod.fst ↔
      k ∈ nodes.map FlowNode.id) := by
  have hlen : nodes.length > 0 := List.length_pos.mpr hne
  have heff : initEffect (some nodes) store = initPositions nodes := by
    simp [initEffect, hlen]
  refine ⟨heff, ?_, ?_, ?_⟩ <;> rw [heff]
  · exact length_initPositions nodes hnd
  · intro n hn
    exact mapGet_initPositions_of_nodup nodes n hn hnd
  · intro k
    exact mem_keys_initPositions nodes k

/-- Witness for C1 (amended): one supplied node over a stale store. -/
theorem claim_c1_init_resets_witness :
    initEffect (some [⟨"a", "A", ⟨1, 2⟩, none⟩]) [("old", ⟨5, 5⟩)]
      = initPositions [⟨"a", "A", ⟨1, 2⟩, none⟩] ∧
    (initEffect (some [⟨"a", "A", ⟨1, 2⟩, none⟩]) [("old", ⟨5, 5⟩)]).length = 1 ∧
    mapGet (initEffect (some [⟨"a", "A", ⟨1, 2⟩, none⟩]) [("old", ⟨5, 5⟩)]) "a"
      = some ⟨1, 2⟩ := by
  have h := claim_c1_init_resets [⟨"a", "A", ⟨1, 2⟩, none⟩] [("old", ⟨5, 5⟩)]
    (by decide) (by decide)
  exact ⟨h.1, h.2.1, h.2.2.1 ⟨"a", "A", ⟨1, 2⟩, none⟩ (by simp)⟩

/-- Claim C2: an edge whose source id or target id matches no node in
the supplied sequence produces no output (`renderEdge` returns `none`,
and being a total function it raises nothing); an edge with both ends
resolvable produces output. -/
theorem claim_c2_dangling_edge_skipped (edge : FlowEdge) (nodes : List FlowNode) :
    ((∀ n ∈ nodes, n.id ≠ edge.source) ∨ (∀ n ∈ nodes, n.id ≠ edge.target) →
      renderEdge edge nodes = none) ∧
    ((∃ n ∈ nodes, n.id = edge.source) → (∃ n ∈ nodes, n.id = edge.target) →
      (renderEdge edge nodes).isSome = true) := by
  constructor
  · rintro (h | h)
    · have hfs : nodes.find? (fun n => n.id = edge.source) = none := by
        rw [List.find?_eq_none]
        intro n hn
        simpa using h n hn
      cases hft : nodes.find? (fun n => n.id = edge.target) <;>
        simp [renderEdge, hfs, hft]
    · have hft : nodes.find? (fun n => n.id = edge.target) = none := by
        rw [List.find?_eq_none]
        intro n hn
        simpa using h n hn
      cases hfs : nodes.find? (fun n => n.id = edge.source) <;>
        simp [renderEdge, hfs, hft]
  · intro hs ht
    have hfs : (nodes.find? (fun n => n.id = edge.source)).isSome := by
      rw [List.find?_isSome]
      obtain ⟨n, hn, he⟩ := hs
      exact ⟨n, hn, by simpa using he⟩
    have hft : (nodes.find? (fun n => n.id = edge.target)).isSome := by
      rw [List.find?_isSome]
      obtain ⟨n, hn, he⟩ := ht
      exact ⟨n, hn, by simpa using he⟩
    obtain ⟨sn, hsn⟩ := Option.isSome_iff_exists.mp hfs
    obtain ⟨tn, htn⟩ := Option.isSome_iff_exists.mp hft
    simp [renderEdge, hsn, htn]

/-- Witness for C2: an edge to missing target "99" is skipped; the edge
between the two present nodes renders. -/
theorem claim_c2_dangling_edge_skipped_witness :
    renderEdge ⟨"e-bad", "1", "99", none, none, none, none⟩
      [⟨"1", "S", ⟨0, 0⟩, none⟩, ⟨"2", "T", ⟨100, 50⟩, none⟩] = none ∧
    (renderEdge ⟨"e1-2", "1", "2", none, none, none, none⟩
      [⟨"1", "S", ⟨0, 0⟩, none⟩, ⟨"2", "T", ⟨100, 50⟩, none⟩]).isSome = true := by
  constructor
  · exact (claim_c2_dangling_edge_skipped
      ⟨"e-bad", "1", "99", none, none, none, none⟩
      [⟨"1", "S", ⟨0, 0⟩, none⟩, ⟨"2", "T", ⟨100, 50⟩, none⟩]).1
      (Or.inr (by decide))
  · exact (claim_c2_dangling_edge_skipped
      ⟨"e1-2", "1", "2", none, none, none, none⟩
      [⟨"1", "S", ⟨0, 0⟩, none⟩, ⟨"2", "T", ⟨100, 50⟩, none⟩]).2
      ⟨⟨"1", "S", ⟨0, 0⟩, none⟩, by simp, rfl⟩
      ⟨⟨"2", "T", ⟨100, 50⟩, none⟩, by simp, rfl⟩

/-- Claim C3: with fitView enabled and a non-empty node sequence, the
computed viewport is
(minX - 50, minY - 50, max((maxX+200) - (minX-50), 400),
max((maxY+100) - (minY-50), 300)) where the min/max range over the
current positions — `listMin`/`listMax` are genuine attained bounds —
so the width is never below 400 nor the height below 300. -/
theorem claim_c3_fit_viewport (nodes : List FlowNode) (store : PosMap)
    (prev : ViewBox) (ps : List Pos) (hne : nodes ≠ [])
    (hps : ps = currentPositions nodes store) :
    viewBoxEffect true (some nodes) store prev = fitViewBox ps ∧
    fitViewBox ps =
      ⟨listMin (ps.map Pos.x) - 50, listMin (ps.map Pos.y) - 50,
       max ((listMax (ps.map Pos.x) + 200) - (listMin (ps.map Pos.x) - 50)) 400,
       max ((listMax (ps.map Pos.y) + 100) - (listMin (ps.map Pos.y) - 50)) 300⟩ ∧
    400 ≤ (fitViewBox ps).w ∧
    300 ≤ (fitViewBox ps).h ∧
    (∀ q ∈ ps,
      listMin (ps.map Pos.x) ≤ q.x ∧ q.x ≤ listMax (ps.map Pos.x) ∧
      listMin (ps.map Pos.y) ≤ q.y ∧ q.y ≤ listMax (ps.map Pos.y)) ∧
    listMin (ps.map Pos.x) ∈ ps.map Pos.x ∧
    listMax (ps.map Pos.x) ∈ ps.map Pos.x ∧
    listMin (ps.map Pos.y) ∈ ps.map Pos.y ∧
    listMax (ps.map Pos.y) ∈ ps.map Pos.y := by
  subst hps
  have hne₂ : currentPositions nodes store ≠ [] :=
    currentPositions_ne_nil nodes store hne
  have hxne : (currentPositions nodes store).map Pos.x ≠ [] := by
    intro hx
    exact hne₂ (List.map_eq_nil_iff.mp hx)
  have hyne : (currentPositions nodes store).map Pos.y ≠ [] := by
    intro hy
    exact hne₂ (List.map_eq_nil_iff.mp hy)
  have hlen : nodes.length > 0 := List.length_pos.mpr hne
  refine ⟨?_, rfl, le_max_right _ _, le_max_right _ _, ?_, ?_, ?_, ?_, ?_⟩
  · simp [viewBoxEffect, hlen]
  · intro q hq
    exact ⟨listMin_le _ _ (List.mem_map_of_mem Pos.x hq),
      le_listMax _ _ (List.mem_map_of_mem Pos.x hq),
      listMin_le _ _ (List.mem_map_of_mem Pos.y hq),
      le_listMax _ _ (List.mem_map_of_mem Pos.y hq)⟩
  · exact listMin_mem _ hxne
  · exact listMax_mem _ hxne
  · exact listMin_mem _ hyne
  · exact listMax_mem _ hyne

/-- Witness for C3: a single node at the origin yields the minimum
viewport (-50, -50, 400, 300). -/
theorem claim_c3_fit_viewport_witness :
    viewBoxEffect true (some [⟨"a", "A", ⟨0, 0⟩, none⟩]) [] ⟨0, 0, 800, 600⟩
      = fitViewBox [⟨0, 0⟩] ∧
    400 ≤ (fitViewBox [⟨0, 0⟩]).w ∧
    300 ≤ (fitViewBox [⟨0, 0⟩]).h ∧
    fitViewBox [⟨0, 0⟩] = ⟨-50, -50, 400, 300⟩ := by
  have h := claim_c3_fit_viewport [⟨"a", "A", ⟨0, 0⟩, none⟩] [] ⟨0, 0, 800, 600⟩
    [⟨0, 0⟩] (by decide) (by decide)
  refine ⟨h.1, h.2.2.1, h.2.2.2.1, ?_⟩
  norm_num [fitViewBox, listMin, listMax, max_def]

/-- Claim C6: for an edge with resolvable ends, the synthesized path is
anchored at (source.x + 60, source.y + 25) and (target.x + 60,
target.y + 25); `straight` yields one line segment, `step` a
three-segment orthogonal path through the vertical midpoint, and
`smoothstep` / `bezier` / unset a single cubic whose two control points
use the vertical midpoint as y coordinate. -/
theorem claim_c6_edge_path_shapes (edge : FlowEdge) (nodes : List FlowNode)
    (s t : FlowNode)
    (hs : nodes.find? (fun n => n.id = edge.source) = some s)
    (ht : nodes.find? (fun n => n.id = edge.target) = some t) :
    (renderEdge edge nodes).map RenderedEdge.path
      = some (edgePathD edge.kind (s.position.x + 60) (s.position.y + 25)
          (t.position.x + 60) (t.position.y + 25)
          (((s.position.y + 25) + (t.position.y + 25)) / 2)) ∧
    (edge.kind = some .straight →
      edgePathD edge.kind (s.position.x + 60) (s.position.y + 25)
          (t.position.x + 60) (t.position.y + 25)
          (((s.position.y + 25) + (t.position.y + 25)) / 2)
        = [.moveTo (s.position.x + 60) (s.position.y + 25),
           .lineTo (t.position.x + 60) (t.position.y + 25)]) ∧
    (edge.kind = some .step →
      edgePathD edge.kind (s.position.x + 60) (s.position.y + 25)
          (t.position.x + 60) (t.position.y + 25)
          (((s.position.y + 25) + (t.position.y + 25)) / 2)
        = [.moveTo (s.position.x + 60) (s.position.y + 25),
           .lineTo (s.position.x + 60) (((s.position.y + 25) + (t.position.y + 25)) / 2),
           .lineTo (t.position.x + 60) (((s.position.y + 25) + (t.position.y + 25)) / 2),
           .lineTo (t.position.x + 60) (t.position.y + 25)]) ∧
    ((edge.kind = some .smoothstep ∨ edge.kind = some .bezier ∨ edge.kind = none) →
      edgePathD edge.kind (s.position.x + 60) (s.position.y + 25)
          (t.position.x + 60) (t.position.y + 25)
          (((s.position.y + 25) + (t.position.y + 25)) / 2)
        = [.moveTo (s.position.x + 60) (s.position.y + 25),
           .curveTo (s.position.x + 60) (((s.position.y + 25) + (t.position.y + 25)) / 2)
             (t.position.x + 60) (((s.position.y + 25) + (t.position.y + 25)) / 2)
             (t.position.x + 60) (t.position.y + 25)]) := by
  refine ⟨?_, ?_, ?_, ?_⟩
  · simp [renderEdge, hs, ht]
  · intro hk
    rw [hk]
    rfl
  · intro hk
    rw [hk]
    rfl
  · rintro (hk | hk | hk) <;> rw [hk] <;> rfl

/-- Witness for C6: edges of each connector style between a node at
(0, 0) and a node at (100, 50): anchors (60, 25) and (160, 75),
vertical midpoint 50. -/
theorem claim_c6_edge_path_shapes_witness :
    (renderEdge ⟨"e1", "1", "2", none, some .straight, none, none⟩
        [⟨"1", "S", ⟨0, 0⟩, none⟩, ⟨"2", "T", ⟨100, 50⟩, none⟩]).map
        RenderedEdge.path
      = some [.moveTo 60 25, .lineTo 160 75] ∧
    (renderEdge ⟨"e2", "1", "2", none, some .step, none, none⟩
        [⟨"1", "S", ⟨0, 0⟩, none⟩, ⟨"2", "T", ⟨100, 50⟩, none⟩]).map
        RenderedEdge.path
      = some [.moveTo 60 25, .lineTo 60 50, .lineTo 160 50, .lineTo 160 75] ∧
    (renderEdge ⟨"e3", "1", "2", none, none, none, none⟩
        [⟨"1", "S", ⟨0, 0⟩, none⟩, ⟨"2", "T", ⟨100, 50⟩, none⟩]).map
        RenderedEdge.path
      = some [.moveTo 60 25, .curveTo 60 50 160 50 160 75] := by
  have h1 := claim_c6_edge_path_shapes
    ⟨"e1", "1", "2", none, some .straight, none, none⟩
    [⟨"1", "S", ⟨0, 0⟩, none⟩, ⟨"2", "T", ⟨100, 50⟩, none⟩]
    ⟨"1", "S", ⟨0, 0⟩, none⟩ ⟨"2", "T", ⟨100, 50⟩, none⟩ rfl rfl
  have h2 := claim_c6_edge_path_shapes
    ⟨"e2", "1", "2", none, some .step, none, none⟩
    [⟨"1", "S", ⟨0, 0⟩, none⟩, ⟨"2", "T", ⟨100, 50⟩, none⟩]
    ⟨"1", "S", ⟨0, 0⟩, none⟩ ⟨"2", "T", ⟨100, 50⟩, none⟩ rfl rfl
  have h3 := claim_c6_edge_path_shapes
    ⟨"e3", "1", "2", none, none, none, none⟩
    [⟨"1", "S", ⟨0, 0⟩, none⟩, ⟨"2", "T", ⟨100, 50⟩, none⟩]
    ⟨"1", "S", ⟨0, 0⟩, none⟩ ⟨"2", "T", ⟨100, 50⟩, none⟩ rfl rfl
  refine ⟨?_, ?_, ?_⟩
  · rw [h1.1, h1.2.1 rfl]
    norm_num
  · rw [h2.1, h2.2.2.1 rfl]
    norm_num
  · rw [h3.1, h3.2.2.2 (Or.inr (Or.inr rfl))]
    norm_num

/-- Claim C7: when an exception is raised while rendering the diagram
subtree, the boundary replaces the output with the static error panel
carrying the same variant/size/className container classes as the
normal container, and the render still returns a value (nothing
propagates). -/
theorem claim_c7_error_boundary (p : FlowProps) (store : PosMap)
    (ns : List FlowNode) (err : String) (hn : p.nodes = some ns)
    (hne : ns ≠ []) :
    componentRender p store (some err)
      = .errorPanel (containerClass p.variant p.size p.className) ∧
    outputClass (componentRender p store (some err))
      = outputClass (componentRender p store none) := by
  have hlen : ¬ns.length = 0 := by
    intro h
    exact hne (List.length_eq_zero.mp h)
  constructor
  · simp [componentRender, hn, hlen, flowErrorBoundaryRender, containerClass]
  · simp [componentRender, hn, hlen, flowErrorBoundaryRender, renderDiagram,
      outputClass, containerClass]

/-- Witness for C7: a bordered, large, custom-classed container whose
subtree throws renders the error panel with those same classes. -/
theorem claim_c7_error_boundary_witness :
    componentRender
        ⟨some [⟨"a", "A", ⟨0, 0⟩, none⟩], some [], some "T",
         some .bordered, some .lg, some "extra", true, false⟩ [] (some "boom")
      = .errorPanel (containerClass (some .bordered) (some .lg) (some "extra")) ∧
    outputClass (componentRender
        ⟨some [⟨"a", "A", ⟨0, 0⟩, none⟩], some [], some "T",
         some .bordered, some .lg, some "extra", true, false⟩ [] (some "boom"))
      = outputClass (componentRender
        ⟨some [⟨"a", "A", ⟨0, 0⟩, none⟩], some [], some "T",
         some .bordered, some .lg, some "extra", true, false⟩ [] none) :=
  claim_c7_error_boundary
    ⟨some [⟨"a", "A", ⟨0, 0⟩, none⟩], some [], some "T",
     some .bordered, some .lg, some "extra", true, false⟩ []
    [⟨"a", "A", ⟨0, 0⟩, none⟩] "boom" rfl (by decide)

/-- Claim C10: when an identifier occurs in the supplied node sequence
(in particular when several nodes share it), the initialized store keeps
exactly one entry for it, holding the position of the last node in the
sequence with that id, and `getCurrentPosition` returns exactly those
coordinates. -/
theorem claim_c10_duplicate_ids_last_wins (nodes : List FlowNode) (k : String)
    (hmem : k ∈ nodes.map FlowNode.id) :
    entryCount (initPositions nodes) k = 1 ∧
    mapGet (initPositions nodes) k
      = ((nodes.filter (fun n => n.id = k)).getLast?).elim none
          (fun n => some n.position) ∧
    (∀ n : FlowNode, (nodes.filter (fun n' => n'.id = k)).getLast? = some n →
      getCurrentPosition (initPositions nodes) k = n.position) := by
  have hsome : (mapGet (initPositions nodes) k).isSome = true := by
    rw [isSome_mapGet_iff, mem_keys_initPositions]
    exact hmem
  refine ⟨?_, mapGet_initPositions nodes k, ?_⟩
  · rw [entryCount_of_keys_nodup _ _ (initPositions_keys_nodup nodes)]
    simp [hsome]
  · intro n hn
    rw [getCurrentPosition, mapGet_initPositions nodes k, hn]
    rfl

/-- Witness for C10: two nodes share id "a"; the store keeps one entry
at the later node's coordinates (2, 3). -/
theorem claim_c10_duplicate_ids_last_wins_witness :
    entryCount (initPositions
      [⟨"a", "A1", ⟨1, 1⟩, none⟩, ⟨"b", "B", ⟨9, 9⟩, none⟩,
       ⟨"a", "A2", ⟨2, 3⟩, none⟩]) "a" = 1 ∧
    mapGet (initPositions
      [⟨"a", "A1", ⟨1, 1⟩, none⟩, ⟨"b", "B", ⟨9, 9⟩, none⟩,
       ⟨"a", "A2", ⟨2, 3⟩, none⟩]) "a" = some ⟨2, 3⟩ ∧
    getCurrentPosition (initPositions
      [⟨"a", "A1", ⟨1, 1⟩, none⟩, ⟨"b", "B", ⟨9, 9⟩, none⟩,
       ⟨"a", "A2", ⟨2, 3⟩, none⟩]) "a" = ⟨2, 3⟩ := by
  have h := claim_c10_duplicate_ids_last_wins
    [⟨"a", "A1", ⟨1, 1⟩, none⟩, ⟨"b", "B", ⟨9, 9⟩, none⟩,
     ⟨"a", "A2", ⟨2, 3⟩, none⟩] "a" (by simp)
  refine ⟨h.1, ?_, h.2.2 ⟨"a", "A2", ⟨2, 3⟩, none⟩ (by decide)⟩
  rw [h.2.1]
  decide

end TamboFlow
